import Mathlib

/-!
# Agency Cross-Sell Analysis Tool — verification of the core pipeline

Shallow embedding of the classification and aggregation engine of
`src/app.py` (schema normalizer, line-of-business filter, customer
classifier, agency aggregator), followed by theorems settling the
frozen claims about it.

Tables are modelled as a header (list of column names) plus rows; a raw
row is an association list from column name to cell value.  Pandas
DataFrame operations are embedded as list operations: `groupby` over a
key becomes filtering by that key over the deduplicated list of key
values, `nunique` becomes `List.dedup` followed by `length`, and the
broadcast of a per-group value back onto row indices becomes a per-row
`map`.  Numeric columns are rationals; a pandas division whose
denominator is zero produces NaN/inf (not a rational), embedded as
`none : Option ℚ`.
-/

set_option autoImplicit false

namespace CrossSell

/-- One normalized input row (`PolicyRecord` of the spec): the five
canonical columns of `src/app.py` line 78. -/
structure Row where
  division : String
  customerName : String
  lineOfBusiness : String
  carrier : String
  policyNumber : String
  deriving DecidableEq, Repr

/-- A raw spreadsheet row: cells keyed by column name. -/
abbrev RawRow := List (String × String)

/-- A raw table as produced by `pd.read_excel`: a header and the rows. -/
structure RawTable where
  columns : List String
  data : List RawRow
  deriving Repr

/-- Cell lookup by column name (first matching column, empty if absent). -/
def lookupCell (r : RawRow) (c : String) : String :=
  ((r.find? (fun p => p.1 = c)).map Prod.snd).getD ""

/-- Python `str.strip()`: drop leading and trailing whitespace
characters. -/
def stripStr (s : String) : String :=
  ⟨((s.data.dropWhile Char.isWhitespace).reverse.dropWhile Char.isWhitespace).reverse⟩

/-- `df.columns.str.strip()` (line 62): strip whitespace from every
column label (and, in this keyed model, from the row keys with them). -/
def stripTable (t : RawTable) : RawTable :=
  ⟨t.columns.map stripStr, t.data.map (fun r => r.map (fun p => (stripStr p.1, p.2)))⟩

/-- The alias table `column_map` of lines 64-70. -/
def column_map : List (String × List String) :=
  [("Division", ["Division", "Agency", "Agency Name", "Policy Division"]),
   ("Customer Name", ["Customer Name", "Client Name"]),
   ("Line of Business/Non-Premium", ["Line of Business/Non-Premium", "Line of Business"]),
   ("Carrier", ["Carrier", "Parent Company"]),
   ("Policy Number", ["Policy Number"])]

/-- The rename loop of lines 72-76: for each canonical field, the first
alias present in the header is renamed to the canonical name (every
column carrying that label, as `df.rename` does), and the scan stops
(`break`). -/
def renameTable (t : RawTable) : RawTable :=
  column_map.foldl
    (fun tb p =>
      match p.2.find? (fun v => tb.columns.contains v) with
      | some v =>
          ⟨tb.columns.map (fun c => if c = v then p.1 else c),
           tb.data.map (fun r => r.map (fun cell => if cell.1 = v then (p.1, cell.2) else cell))⟩
      | none => tb)
    t

/-- `required_cols` of line 78. -/
def required_cols : List String :=
  ["Division", "Customer Name", "Line of Business/Non-Premium", "Carrier", "Policy Number"]

/-- The canonical fields absent from a header (line 79 checks this list
is empty). -/
def missingCols (cols : List String) : List String :=
  required_cols.filter (fun c => ¬ cols.contains c)

/-- Read a normalized raw row into a `Row` via the canonical columns. -/
def toRow (r : RawRow) : Row :=
  ⟨lookupCell r "Division", lookupCell r "Customer Name",
   lookupCell r "Line of Business/Non-Premium", lookupCell r "Carrier",
   lookupCell r "Policy Number"⟩

/-- The fixed line-of-business allow-list of lines 82-84. -/
def allowedLOBs : List String :=
  ["Homeowners", "Private Passenger Auto", "Mobile Homeowners"]

/-- The filter `df[df["Line of Business/Non-Premium"].isin([...])]`
(lines 82-84): keep exactly the rows whose line of business is in the
allow-list, by exact string match. -/
def filterLOB (rows : List Row) : List Row :=
  rows.filter (fun r => allowedLOBs.contains r.lineOfBusiness)

/-- The group `df.groupby("Customer Name")` hands to `classify` for one
customer: all rows carrying that exact name. -/
def recordsOf (rows : List Row) (name : String) : List Row :=
  rows.filter (fun r => r.customerName = name)

/-- `set(group["Line of Business/Non-Premium"])` as a deduplicated list
(its length is the size of the Python set). -/
def distinctLOBs (rs : List Row) : List String :=
  (rs.map Row.lineOfBusiness).dedup

/-- `classify` (lines 86-88): Cross-Sold when the customer's records
span more than one distinct line of business, else Monoline.  The
per-group `pd.Series` broadcast to every row of the group is embedded
at `classifyAll`. -/
def classify (rows : List Row) (name : String) : String :=
  if 1 < (distinctLOBs (recordsOf rows name)).length then "Cross-Sold" else "Monoline"

/-- The distinct carriers of a group, `group.groupby("Carrier")` keys. -/
def carriersOf (rs : List Row) : List String :=
  (rs.map Row.carrier).dedup

/-- `classify_carrier` (lines 90-94): Cross-Sold when any single carrier
of the customer holds more than one distinct line of business, else
Monoline. -/
def classify_carrier (rows : List Row) (name : String) : String :=
  let g := recordsOf rows name
  if (carriersOf g).any
      (fun c => 1 < (distinctLOBs (g.filter (fun r => r.carrier = c))).length)
  then "Cross-Sold" else "Monoline"

/-- A row with its two derived columns (`ClassifiedRecord` of the spec):
`Account Type` and `Carrier Account Type`. -/
structure ClassifiedRow where
  row : Row
  accountType : String
  carrierAccountType : String
  deriving DecidableEq, Repr

/-- Lines 96-97: the grouped classification broadcast back onto each row
(`groupby("Customer Name").apply(...).reset_index(level=0, drop=True)`
realigns the per-group series with the original row index, so every row
receives its customer's value). -/
def classifyAll (rows : List Row) : List ClassifiedRow :=
  rows.map (fun r =>
    ⟨r, classify rows r.customerName, classify_carrier rows r.customerName⟩)

/-- The full load path (lines 61-97): strip the header, apply the alias
renames, check `required_cols` (lines 78-80: on failure
`st.error("Missing one or more required columns.")` and the `else`
branch — filter and classification — is skipped), then filter and
classify. -/
def load (t : RawTable) : Except String (List ClassifiedRow) :=
  let t := renameTable (stripTable t)
  if (missingCols t.columns).isEmpty then
    Except.ok (classifyAll (filterLOB (t.data.map toRow)))
  else
    Except.error "Missing one or more required columns."

/-- A pandas division: a genuine quotient when the denominator is
nonzero, NaN/inf (no rational value, `none`) when it is zero.  Lines
104-105 apply it with no zero guard. -/
def pandasDiv (a b : ℚ) : Option ℚ :=
  if b = 0 then none else some (a / b)

/-- `.round(2)` of line 104: round to two decimal places.  (Pandas
breaks exact ties to even; no claim in scope evaluates at a tie, so the
standard `round` on ℚ serves.) -/
def round2 (q : ℚ) : ℚ :=
  (round (q * 100) : ℤ) / 100

/-- One group of `df.groupby("Division")`: the classified rows of one
division (also `agency_df` of line 111). -/
def rowsOfDivision (crs : List ClassifiedRow) (d : String) : List ClassifiedRow :=
  crs.filter (fun cr => cr.row.division = d)

/-- The division keys produced by `df.groupby("Division")`. -/
def divisionsOf (crs : List ClassifiedRow) : List String :=
  (crs.map (fun cr => cr.row.division)).dedup

/-- One row of `agency_summary` (`AgencySummary` of the spec): lines
99-105. -/
structure AgencySummaryRow where
  division : String
  totalClients : Nat
  monolineCount : Nat
  crossSoldCount : Nat
  pctMonoline : Option ℚ
  pctCrossSold : Option ℚ
  deriving DecidableEq, Repr

/-- Lines 99-105 for one division: `Total_Clients` is
`("Customer Name", "nunique")`; `Monoline` and `Cross_Sold` are the
row-wise sums `lambda x: (x == v).sum()` over the division's
`Account Type` column; `% Monoline` is
`(Monoline / Total_Clients * 100).round(2)` and `% Cross-Sold` is
`100 - % Monoline`. -/
def agencySummaryRow (crs : List ClassifiedRow) (d : String) : AgencySummaryRow :=
  let g := rowsOfDivision crs d
  let total := ((g.map (fun cr => cr.row.customerName)).dedup).length
  let mono := (g.filter (fun cr => cr.accountType = "Monoline")).length
  let cross := (g.filter (fun cr => cr.accountType = "Cross-Sold")).length
  let pm := (pandasDiv (mono : ℚ) (total : ℚ)).map (fun x => round2 (x * 100))
  ⟨d, total, mono, cross, pm, pm.map (fun x => 100 - x)⟩

/-- The whole `agency_summary` table (lines 99-105). -/
def agencySummary (crs : List ClassifiedRow) : List AgencySummaryRow :=
  (divisionsOf crs).map (agencySummaryRow crs)

/-- The distinct customers of a classified subset
(`agency_df["Customer Name"].nunique()` counts this list, line 117). -/
def customerNames (crs : List ClassifiedRow) : List String :=
  (crs.map (fun cr => cr.row.customerName)).dedup

/-- `groupby("Customer Name")[col].first()` for one customer: the value
on that customer's first row. -/
def firstValue (crs : List ClassifiedRow) (f : ClassifiedRow → String) (name : String) :
    Option String :=
  (crs.find? (fun cr => cr.row.customerName = name)).map f

/-- Lines 118-124: `groupby("Customer Name")[col].first().value_counts().get(v, 0)`
— the number of distinct customers whose first-seen value of the column
is `v`. -/
def perCustomerCount (crs : List ClassifiedRow) (f : ClassifiedRow → String) (v : String) :
    Nat :=
  ((customerNames crs).filter (fun n => firstValue crs f n = some v)).length

/-- Lines 270-271: the carrier-level percentage of `carrier_data`, with
its zero-client guard — `count / totalClients * 100` when
`totalClients` is nonzero, the literal `0.0` otherwise.  (The `:.1f`
string formatting is presentation.) -/
def carrierPctValue (count totalClients : Nat) : ℚ :=
  if totalClients = 0 then 0 else (count : ℚ) / totalClients * 100

/-! Spec-side views used to state the claims: the set of distinct lines
of business of one customer, overall and per carrier. -/

/-- The set of distinct `lineOfBusiness` values across all of a
customer's records in a working set. -/
def lobSet (rows : List Row) (name : String) : Finset String :=
  ((recordsOf rows name).map Row.lineOfBusiness).toFinset

/-- The set of distinct `lineOfBusiness` values a customer holds with
one carrier. -/
def carrierLobSet (rows : List Row) (name c : String) : Finset String :=
  (((recordsOf rows name).filter (fun r => r.carrier = c)).map Row.lineOfBusiness).toFinset

/-! Concrete datasets used by witnesses and counterexamples. -/

/-- One customer, two distinct lines at the same carrier. -/
def sameCarrierRows : List Row :=
  [⟨"D", "Alice", "Homeowners", "CarrierA", "P1"⟩,
   ⟨"D", "Alice", "Private Passenger Auto", "CarrierA", "P2"⟩]

/-- The classified working set of `sameCarrierRows`. -/
def sameCarrierCrs : List ClassifiedRow :=
  classifyAll (filterLOB sameCarrierRows)

/-- One customer, two distinct lines at two different carriers. -/
def twoCarrierRows : List Row :=
  [⟨"D", "X", "Homeowners", "CarrierA", "P1"⟩,
   ⟨"D", "X", "Private Passenger Auto", "CarrierB", "P2"⟩]

/-- The same customer name in two divisions, one line in each. -/
def twoDivisionRows : List Row :=
  [⟨"A", "X", "Homeowners", "CarrierA", "P1"⟩,
   ⟨"B", "X", "Private Passenger Auto", "CarrierB", "P2"⟩]

/-- The first classified row of `twoDivisionRows`. -/
def xDivRowA : ClassifiedRow :=
  ⟨⟨"A", "X", "Homeowners", "CarrierA", "P1"⟩, "Cross-Sold", "Monoline"⟩

/-- The first classified row of `sameCarrierRows`. -/
def xSame1 : ClassifiedRow :=
  ⟨⟨"D", "Alice", "Homeowners", "CarrierA", "P1"⟩, "Cross-Sold", "Cross-Sold"⟩

/-- The second classified row of `sameCarrierRows`. -/
def xSame2 : ClassifiedRow :=
  ⟨⟨"D", "Alice", "Private Passenger Auto", "CarrierA", "P2"⟩, "Cross-Sold", "Cross-Sold"⟩

/-- Customer X holds only a line outside the allow-list; customer Y is
inside it. -/
def boatRows : List Row :=
  [⟨"D", "X", "Boat", "CarrierA", "P1"⟩,
   ⟨"D", "Y", "Homeowners", "CarrierA", "P2"⟩]

/-- A single-customer classified working set (one monoline client). -/
def monoCrs : List ClassifiedRow :=
  classifyAll (filterLOB [⟨"D", "Bob", "Homeowners", "CarrierA", "P3"⟩])

/-- A raw table with aliased headers but no "Policy Number" column under
any alias. -/
def missingPolicyTable : RawTable :=
  ⟨["Agency ", "Client Name", "Line of Business", "Parent Company"],
   [[("Agency ", "D"), ("Client Name", "Alice"),
     ("Line of Business", "Homeowners"), ("Parent Company", "CA")]]⟩

/-- A raw table with aliased headers but no "Carrier" column under any
alias. -/
def missingCarrierTable : RawTable :=
  ⟨["Agency", "Client Name", "Line of Business", "Policy Number"],
   [[("Agency", "D"), ("Client Name", "Alice"),
     ("Line of Business", "Homeowners"), ("Policy Number", "P1")]]⟩

/-- A raw table whose header already carries every canonical name. -/
def completeTable : RawTable :=
  ⟨["Division", "Customer Name", "Line of Business/Non-Premium", "Carrier", "Policy Number"],
   [[("Division", "D"), ("Customer Name", "Alice"),
     ("Line of Business/Non-Premium", "Homeowners"), ("Carrier", "CA"),
     ("Policy Number", "P1")]]⟩

/-! Helper lemmas. -/

/-- Membership in the classified working set: every classified row is an
input row paired with its customer's two classifications. -/
theorem classifyAll_mem {rows : List Row} {cr : ClassifiedRow} (h : cr ∈ classifyAll rows) :
    cr.row ∈ rows ∧ cr.accountType = classify rows cr.row.customerName ∧
      cr.carrierAccountType = classify_carrier rows cr.row.customerName := by
  simp only [classifyAll, List.mem_map] at h
  obtain ⟨r, hr, rfl⟩ := h
  exact ⟨hr, rfl, rfl⟩

/-- Deduplicated length is monotone under list inclusion. -/
theorem dedup_length_le_of_subset {l1 l2 : List String} (h : l1 ⊆ l2) :
    l1.dedup.length ≤ l2.dedup.length := by
  rw [← List.card_toFinset, ← List.card_toFinset]
  exact Finset.card_le_card (fun a ha => by
    rw [List.mem_toFinset] at ha ⊢
    exact h ha)

/-- The size of `lobSet` is the length of the deduplicated list the code
computes. -/
theorem lobSet_card (rows : List Row) (name : String) :
    (lobSet rows name).card = (distinctLOBs (recordsOf rows name)).length := by
  simp only [lobSet, distinctLOBs, List.card_toFinset]

/-- The size of `carrierLobSet` is the length of the deduplicated list
the code computes for one carrier group. -/
theorem carrierLobSet_card (rows : List Row) (name c : String) :
    (carrierLobSet rows name c).card
      = (distinctLOBs ((recordsOf rows name).filter (fun r => r.carrier = c))).length := by
  simp only [carrierLobSet, distinctLOBs, List.card_toFinset]

/-- Restricting to a customer's records commutes with any per-row update
that keeps the customer name. -/
theorem recordsOf_map (rows : List Row) (u : Row → Row) (name : String)
    (hn : ∀ r, (u r).customerName = r.customerName) :
    recordsOf (rows.map u) name = (recordsOf rows name).map u := by
  induction rows with
  | nil => rfl
  | cons r rs ih =>
    by_cases h : r.customerName = name
    · simp [recordsOf, List.filter_cons, hn, h] at ih ⊢
      exact ih
    · simp [recordsOf, List.filter_cons, hn, h] at ih ⊢
      exact ih

/-- A per-row update that keeps the line of business keeps the distinct
lines. -/
theorem distinctLOBs_map (rs : List Row) (u : Row → Row)
    (hl : ∀ r, (u r).lineOfBusiness = r.lineOfBusiness) :
    distinctLOBs (rs.map u) = distinctLOBs rs := by
  unfold distinctLOBs
  rw [List.map_map]
  exact congrArg List.dedup (List.map_congr_left (fun r _ => hl r))

/-- A per-row update that keeps the carrier keeps the distinct carriers. -/
theorem carriersOf_map (rs : List Row) (u : Row → Row)
    (hc : ∀ r, (u r).carrier = r.carrier) :
    carriersOf (rs.map u) = carriersOf rs := by
  unfold carriersOf
  rw [List.map_map]
  exact congrArg List.dedup (List.map_congr_left (fun r _ => hc r))

/-- Restricting to one carrier commutes with any per-row update that
keeps the carrier. -/
theorem filter_carrier_map (rs : List Row) (u : Row → Row) (c : String)
    (hc : ∀ r, (u r).carrier = r.carrier) :
    (rs.map u).filter (fun r => r.carrier = c) = (rs.filter (fun r => r.carrier = c)).map u := by
  induction rs with
  | nil => rfl
  | cons r rs ih =>
    by_cases h : r.carrier = c
    · simp [List.filter_cons, hc, h] at ih ⊢
      exact ih
    · simp [List.filter_cons, hc, h] at ih ⊢
      exact ih

/-- `classify` only reads customer names and lines of business. -/
theorem classify_map (rows : List Row) (u : Row → Row) (name : String)
    (hn : ∀ r, (u r).customerName = r.customerName)
    (hl : ∀ r, (u r).lineOfBusiness = r.lineOfBusiness) :
    classify (rows.map u) name = classify rows name := by
  unfold classify
  rw [recordsOf_map rows u name hn, distinctLOBs_map _ u hl]

/-- `classify_carrier` only reads customer names, carriers and lines of
business. -/
theorem classify_carrier_map (rows : List Row) (u : Row → Row) (name : String)
    (hn : ∀ r, (u r).customerName = r.customerName)
    (hl : ∀ r, (u r).lineOfBusiness = r.lineOfBusiness)
    (hc : ∀ r, (u r).carrier = r.carrier) :
    classify_carrier (rows.map u) name = classify_carrier rows name := by
  unfold classify_carrier
  rw [recordsOf_map rows u name hn]
  have harg : ∀ c : String,
      distinctLOBs (((recordsOf rows name).map u).filter (fun r => r.carrier = c))
        = distinctLOBs ((recordsOf rows name).filter (fun r => r.carrier = c)) := by
    intro c
    rw [filter_carrier_map _ u c hc, distinctLOBs_map _ u hl]
  simp only [carriersOf_map _ u hc, harg]

/-- Restricting to a customer's records is idempotent. -/
theorem recordsOf_recordsOf (rows : List Row) (name : String) :
    recordsOf (recordsOf rows name) name = recordsOf rows name := by
  simp only [recordsOf, List.filter_filter]
  exact congrFun (congrArg List.filter (by
    funext r
    by_cases h : r.customerName = name <;> simp [h])) rows

/-- `classify` depends only on the customer's own records. -/
theorem classify_recordsOf (rows : List Row) (name : String) :
    classify (recordsOf rows name) name = classify rows name := by
  unfold classify
  rw [recordsOf_recordsOf]

/-- `classify_carrier` depends only on the customer's own records. -/
theorem classify_carrier_recordsOf (rows : List Row) (name : String) :
    classify_carrier (recordsOf rows name) name = classify_carrier rows name := by
  unfold classify_carrier
  rw [recordsOf_recordsOf]

/-- `classify` can only return one of the two labels. -/
theorem classify_values (rows : List Row) (name : String) :
    classify rows name = "Cross-Sold" ∨ classify rows name = "Monoline" := by
  unfold classify
  split
  · exact Or.inl rfl
  · exact Or.inr rfl

/-- `classify_carrier` can only return one of the two labels. -/
theorem classify_carrier_values (rows : List Row) (name : String) :
    classify_carrier rows name = "Cross-Sold" ∨ classify_carrier rows name = "Monoline" := by
  simp only [classify_carrier]
  split
  · exact Or.inl rfl
  · exact Or.inr rfl

/-- Agency-level Cross-Sold means more than one distinct line of
business over the customer's records. -/
theorem classify_eq_crossSold_iff (rows : List Row) (name : String) :
    classify rows name = "Cross-Sold" ↔ 1 < (lobSet rows name).card := by
  unfold classify
  rw [lobSet_card]
  by_cases h : 1 < (distinctLOBs (recordsOf rows name)).length
  · rw [if_pos h]
    exact iff_of_true rfl h
  · rw [if_neg h]
    exact iff_of_false (by decide) h

/-- Agency-level Monoline means at most one distinct line of business
over the customer's records. -/
theorem classify_eq_monoline_iff (rows : List Row) (name : String) :
    classify rows name = "Monoline" ↔ (lobSet rows name).card ≤ 1 := by
  rw [lobSet_card]
  unfold classify
  by_cases h : 1 < (distinctLOBs (recordsOf rows name)).length
  · rw [if_pos h]
    exact iff_of_false (by decide) (by omega)
  · rw [if_neg h]
    exact iff_of_true rfl (by omega)

/-- Carrier-level Cross-Sold means some carrier holds at least two
distinct lines of business for the customer. -/
theorem classify_carrier_eq_crossSold_iff (rows : List Row) (name : String) :
    classify_carrier rows name = "Cross-Sold"
      ↔ ∃ c : String, 2 ≤ (carrierLobSet rows name c).card := by
  constructor
  · intro hcs
    simp only [classify_carrier] at hcs
    by_cases h : ((carriersOf (recordsOf rows name)).any
        (fun c => decide (1 <
          (distinctLOBs ((recordsOf rows name).filter (fun r => r.carrier = c))).length))) = true
    · rw [List.any_eq_true] at h
      obtain ⟨c, _, hc⟩ := h
      rw [decide_eq_true_eq] at hc
      refine ⟨c, ?_⟩
      rw [carrierLobSet_card]
      omega
    · rw [if_neg h] at hcs
      exact absurd hcs (by decide)
  · rintro ⟨c, hc⟩
    rw [carrierLobSet_card] at hc
    have hmem : c ∈ carriersOf (recordsOf rows name) := by
      have hne : (recordsOf rows name).filter (fun r => r.carrier = c) ≠ [] := by
        intro hnil
        rw [hnil] at hc
        simp [distinctLOBs] at hc
      obtain ⟨r, hr⟩ := List.exists_mem_of_ne_nil _ hne
      rw [List.mem_filter] at hr
      unfold carriersOf
      rw [List.mem_dedup, List.mem_map]
      exact ⟨r, hr.1, of_decide_eq_true hr.2⟩
    have hany : ((carriersOf (recordsOf rows name)).any
        (fun c => decide (1 <
          (distinctLOBs ((recordsOf rows name).filter (fun r => r.carrier = c))).length))) = true :=
      List.any_eq_true.mpr ⟨c, hmem, by rw [decide_eq_true_eq]; omega⟩
    simp only [classify_carrier]
    rw [if_pos hany]

/-- Carrier-level Monoline means no carrier holds two distinct lines of
business for the customer. -/
theorem classify_carrier_eq_monoline_iff (rows : List Row) (name : String) :
    classify_carrier rows name = "Monoline"
      ↔ ¬ ∃ c : String, 2 ≤ (carrierLobSet rows name c).card := by
  constructor
  · intro h hex
    have := (classify_carrier_eq_crossSold_iff rows name).mpr hex
    rw [h] at this
    exact absurd this (by decide)
  · intro h
    rcases classify_carrier_values rows name with hv | hv
    · exact absurd ((classify_carrier_eq_crossSold_iff rows name).mp hv) h
    · exact hv

/-! The claims. -/

/-- C1 (code bug): the claim says `monolineCount` and `crossSoldCount`
of the AgencySummary are counted once per distinct customer, summing to
`totalClients`.  The code of lines 99-103 instead sums `Account Type`
matches per row: on the dataset `sameCarrierRows` (one customer, Alice,
with two policies in distinct lines at one carrier) the division has
`totalClients = 1` but `crossSoldCount = 2`, so the counts do not sum to
`totalClients`; the per-customer counting of lines 118-124 applied to
the same rows yields 1 cross-sold customer, matching the claim. -/
theorem agency_summary_counts_per_row :
    (agencySummaryRow sameCarrierCrs "D").totalClients = 1 ∧
    (agencySummaryRow sameCarrierCrs "D").monolineCount = 0 ∧
    (agencySummaryRow sameCarrierCrs "D").crossSoldCount = 2 ∧
    ¬ ((agencySummaryRow sameCarrierCrs "D").monolineCount
        + (agencySummaryRow sameCarrierCrs "D").crossSoldCount
        = (agencySummaryRow sameCarrierCrs "D").totalClients) ∧
    perCustomerCount sameCarrierCrs ClassifiedRow.accountType "Cross-Sold" = 1 ∧
    perCustomerCount sameCarrierCrs ClassifiedRow.accountType "Monoline" = 0 := by
  decide

/-- C2 counterexample: the error produced for a missing required column
cannot be naming the missing field(s) — two inputs missing different
fields ("Policy Number" in one, "Carrier" in the other) produce the
same fixed error value. -/
theorem schema_error_not_naming_fields :
    missingCols (renameTable (stripTable missingPolicyTable)).columns = ["Policy Number"] ∧
    missingCols (renameTable (stripTable missingCarrierTable)).columns = ["Carrier"] ∧
    load missingPolicyTable = Except.error "Missing one or more required columns." ∧
    load missingPolicyTable = load missingCarrierTable := by
  refine ⟨rfl, rfl, rfl, rfl⟩

/-- C2 (amended): if after alias mapping any of the five canonical
fields is absent, the load fails with the fixed error message
"Missing one or more required columns." (which does not name the
missing field(s)), and no filtering or classification is performed (the
result carries no classified rows). -/
theorem missing_required_columns_rejected (t : RawTable)
    (h : missingCols (renameTable (stripTable t)).columns ≠ []) :
    load t = Except.error "Missing one or more required columns." := by
  simp only [load]
  rw [if_neg]
  simpa using h

/-- C2 witness: the amended theorem applied to the concrete table
missing a Policy Number column. -/
theorem missing_required_columns_rejected_witness :
    load missingPolicyTable = Except.error "Missing one or more required columns." :=
  missing_required_columns_rejected missingPolicyTable (by decide)

/-- C3: classification groups by customer name over the entire filtered
dataset, not per division — it is invariant under arbitrary relabeling
of every row's division; each row's two classifications equal the ones
computed from the union of that name's records across all divisions;
and on the concrete dataset `twoDivisionRows` (name X split across
divisions A and B with one line each) every row is classified
Cross-Sold, which per-division isolation would have made Monoline. -/
theorem classification_is_global (rows : List Row) (f : Row → String) (name : String) :
    (classify (rows.map (fun r => { r with division := f r })) name = classify rows name ∧
      classify_carrier (rows.map (fun r => { r with division := f r })) name
        = classify_carrier rows name) ∧
    (∀ cr ∈ classifyAll rows, cr.row.customerName = name →
        cr.accountType = classify (recordsOf rows name) name ∧
        cr.carrierAccountType = classify_carrier (recordsOf rows name) name) ∧
    (∀ cr ∈ classifyAll twoDivisionRows, cr.accountType = "Cross-Sold") := by
  refine ⟨⟨?_, ?_⟩, ?_, ?_⟩
  · exact classify_map rows _ name (fun r => rfl) (fun r => rfl)
  · exact classify_carrier_map rows _ name (fun r => rfl) (fun r => rfl) (fun r => rfl)
  · intro cr hcr hname
    obtain ⟨-, ha, hc⟩ := classifyAll_mem hcr
    rw [ha, hc, hname, classify_recordsOf, classify_carrier_recordsOf]
    exact ⟨rfl, rfl⟩
  · decide

/-- C3 witness: the theorem applied to `twoDivisionRows` at its first
row: the classification is the one computed from all of name X's
records across both divisions. -/
theorem classification_is_global_witness :
    xDivRowA.accountType = classify (recordsOf twoDivisionRows "X") "X" :=
  ((classification_is_global twoDivisionRows (fun _ => "Z") "X").2.1
    xDivRowA (by decide) (by decide)).1

/-- C4: for a customer present in the working set, `accountType` is
Cross-Sold iff the set of distinct lines of business across the
customer's records has size greater than one, Monoline iff the size is
exactly one; the value is broadcast to every record of the customer;
and it depends only on the set of lines (any working set giving the
same set classifies the customer the same way). -/
theorem classify_characterization (rows rows2 : List Row) (name : String)
    (h : recordsOf rows name ≠ []) :
    (classify rows name = "Cross-Sold" ↔ 1 < (lobSet rows name).card) ∧
    (classify rows name = "Monoline" ↔ (lobSet rows name).card = 1) ∧
    (∀ cr ∈ classifyAll rows, cr.row.customerName = name →
        cr.accountType = classify rows name) ∧
    (lobSet rows2 name = lobSet rows name → classify rows2 name = classify rows name) := by
  have hpos : 1 ≤ (lobSet rows name).card := by
    rw [lobSet_card]
    have hne : distinctLOBs (recordsOf rows name) ≠ [] := by
      unfold distinctLOBs
      rw [Ne, List.dedup_eq_nil, List.map_eq_nil_iff]
      exact h
    have := List.length_pos.mpr hne
    omega
  refine ⟨classify_eq_crossSold_iff rows name, ?_, ?_, ?_⟩
  · rw [classify_eq_monoline_iff]
    omega
  · intro cr hcr hname
    obtain ⟨-, ha, -⟩ := classifyAll_mem hcr
    rw [ha, hname]
  · intro heq
    rcases classify_values rows name with hv | hv
    · rw [hv, classify_eq_crossSold_iff, heq]
      exact (classify_eq_crossSold_iff rows name).mp hv
    · rw [hv, classify_eq_monoline_iff, heq]
      exact (classify_eq_monoline_iff rows name).mp hv

/-- C4 witness: the characterization applied to the concrete working
set `filterLOB sameCarrierRows`, whose customer Alice has records. -/
theorem classify_characterization_witness :
    classify (filterLOB sameCarrierRows) "Alice" = "Cross-Sold"
      ↔ 1 < (lobSet (filterLOB sameCarrierRows) "Alice").card :=
  (classify_characterization (filterLOB sameCarrierRows) [] "Alice" (by decide)).1

/-- C5: `carrierAccountType` is Cross-Sold iff some carrier of the
customer holds at least two distinct lines of business, otherwise
Monoline; in particular on `twoCarrierRows` (Homeowners at CarrierA,
Private Passenger Auto at CarrierB) every row of customer X carries
`accountType` Cross-Sold and `carrierAccountType` Monoline. -/
theorem classify_carrier_characterization (rows : List Row) (name : String) :
    (classify_carrier rows name = "Cross-Sold"
        ↔ ∃ c : String, 2 ≤ (carrierLobSet rows name c).card) ∧
    (classify_carrier rows name = "Monoline"
        ↔ ¬ ∃ c : String, 2 ≤ (carrierLobSet rows name c).card) ∧
    (∀ cr ∈ classifyAll twoCarrierRows,
        cr.accountType = "Cross-Sold" ∧ cr.carrierAccountType = "Monoline") := by
  refine ⟨classify_carrier_eq_crossSold_iff rows name,
          classify_carrier_eq_monoline_iff rows name, ?_⟩
  decide

/-- C5 witness: the characterization applied to the concrete dataset
`twoCarrierRows` for customer X. -/
theorem classify_carrier_characterization_witness :
    classify_carrier twoCarrierRows "X" = "Monoline"
      ↔ ¬ ∃ c : String, 2 ≤ (carrierLobSet twoCarrierRows "X" c).card :=
  (classify_carrier_characterization twoCarrierRows "X").2.1

/-- C6: after classification, any two rows of the working set sharing a
customer name carry identical `accountType` and identical
`carrierAccountType`. -/
theorem classification_broadcast (rows : List Row) (cr1 cr2 : ClassifiedRow)
    (h1 : cr1 ∈ classifyAll rows) (h2 : cr2 ∈ classifyAll rows)
    (hname : cr1.row.customerName = cr2.row.customerName) :
    cr1.accountType = cr2.accountType ∧ cr1.carrierAccountType = cr2.carrierAccountType := by
  obtain ⟨-, ha1, hc1⟩ := classifyAll_mem h1
  obtain ⟨-, ha2, hc2⟩ := classifyAll_mem h2
  rw [ha1, ha2, hc1, hc2, hname]
  exact ⟨rfl, rfl⟩

/-- C6 witness: the broadcast invariant at the two classified rows of
Alice in `sameCarrierRows`. -/
theorem classification_broadcast_witness :
    xSame1.accountType = xSame2.accountType ∧
      xSame1.carrierAccountType = xSame2.carrierAccountType :=
  classification_broadcast (filterLOB sameCarrierRows) xSame1 xSame2
    (by decide) (by decide) (by decide)

/-- C7: the filter retains exactly the rows whose line of business is in
the fixed three-value allow-list (case-sensitive exact match: the
lowercase "homeowners" is dropped); every classified row's line is in
the allow-list; and a customer all of whose policies fall outside the
set appears in no classification output and in no division's customer
list. -/
theorem filter_closure (rows : List Row) (name : String)
    (h : ∀ r ∈ rows, r.customerName = name → ¬ r.lineOfBusiness ∈ allowedLOBs) :
    (∀ r : Row, r ∈ filterLOB rows ↔ r ∈ rows ∧ r.lineOfBusiness ∈ allowedLOBs) ∧
    (∀ cr ∈ classifyAll (filterLOB rows), cr.row.lineOfBusiness ∈ allowedLOBs) ∧
    (∀ cr ∈ classifyAll (filterLOB rows), cr.row.customerName ≠ name) ∧
    (∀ d : String, ¬ name ∈ customerNames (rowsOfDivision (classifyAll (filterLOB rows)) d)) ∧
    filterLOB [⟨"D", "Z", "homeowners", "CarrierA", "P9"⟩] = [] := by
  have hmem : ∀ r : Row, r ∈ filterLOB rows ↔ r ∈ rows ∧ r.lineOfBusiness ∈ allowedLOBs := by
    intro r
    simp [filterLOB, List.mem_filter]
  refine ⟨hmem, ?_, ?_, ?_, by decide⟩
  · intro cr hcr
    obtain ⟨hrow, -, -⟩ := classifyAll_mem hcr
    exact ((hmem cr.row).mp hrow).2
  · intro cr hcr hname
    obtain ⟨hrow, -, -⟩ := classifyAll_mem hcr
    obtain ⟨hin, hlob⟩ := (hmem cr.row).mp hrow
    exact h cr.row hin hname hlob
  · intro d hd
    simp only [customerNames, rowsOfDivision, List.mem_dedup, List.mem_map,
      List.mem_filter] at hd
    obtain ⟨cr, ⟨hcr, -⟩, hnm⟩ := hd
    obtain ⟨hrow, -, -⟩ := classifyAll_mem hcr
    obtain ⟨hin, hlob⟩ := (hmem cr.row).mp hrow
    exact h cr.row hin hnm hlob

/-- C7 witness: on `boatRows`, customer X (whose only policy is a Boat
line) appears in no division's customer list after filtering. -/
theorem filter_closure_witness :
    ¬ "X" ∈ customerNames (rowsOfDivision (classifyAll (filterLOB boatRows)) "D") :=
  (filter_closure boatRows "X" (by decide)).2.2.2.1 "D"

/-- C8: for a division with a positive client count, `% Monoline` is
`round(monolineCount / totalClients * 100, 2)`, `% Cross-Sold` is
`100 - % Monoline`, the two always sum to 100, and a division with
`totalClients = 10` and `monolineCount = 7` gets 70.0 and 30.0. -/
theorem agency_pct_formula (crs : List ClassifiedRow) (d : String)
    (h : 0 < (agencySummaryRow crs d).totalClients) :
    ((agencySummaryRow crs d).pctMonoline
        = some (round2 (((agencySummaryRow crs d).monolineCount : ℚ)
            / ((agencySummaryRow crs d).totalClients : ℚ) * 100))) ∧
    ((agencySummaryRow crs d).pctCrossSold
        = some (100 - round2 (((agencySummaryRow crs d).monolineCount : ℚ)
            / ((agencySummaryRow crs d).totalClients : ℚ) * 100))) ∧
    (∀ pm pc : ℚ, (agencySummaryRow crs d).pctMonoline = some pm →
        (agencySummaryRow crs d).pctCrossSold = some pc → pm + pc = 100) ∧
    ((agencySummaryRow crs d).totalClients = 10 →
      (agencySummaryRow crs d).monolineCount = 7 →
        (agencySummaryRow crs d).pctMonoline = some 70 ∧
        (agencySummaryRow crs d).pctCrossSold = some 30) := by
  simp only [agencySummaryRow] at h ⊢
  set total := ((rowsOfDivision crs d).map (fun cr => cr.row.customerName)).dedup.length with htot
  set mono := ((rowsOfDivision crs d).filter (fun cr => cr.accountType = "Monoline")).length
    with hmono
  have hne : (total : ℚ) ≠ 0 := by
    exact_mod_cast Nat.pos_iff_ne_zero.mp h
  have hdiv : pandasDiv (mono : ℚ) (total : ℚ) = some ((mono : ℚ) / (total : ℚ)) := by
    rw [pandasDiv, if_neg hne]
  refine ⟨?_, ?_, ?_, ?_⟩
  · simp [hdiv]
  · simp [hdiv]
  · intro pm pc hpm hpc
    simp [hdiv] at hpm hpc
    rw [← hpm, ← hpc]
    ring
  · intro h10 h7
    rw [h10, h7] at hdiv ⊢
    have h70 : round2 (((7 : ℕ) : ℚ) / ((10 : ℕ) : ℚ) * 100) = 70 := by
      have harg : (((7 : ℕ) : ℚ) / ((10 : ℕ) : ℚ) * 100) * 100 = ((7000 : ℤ) : ℚ) := by
        push_cast
        norm_num
      rw [round2, harg, round_intCast]
      norm_num
    constructor
    · rw [hdiv, Option.map_some', h70]
    · rw [hdiv, Option.map_some', Option.map_some', h70]
      norm_num

/-- C8 witness: the percentage contract at the single-client division of
`monoCrs`. -/
theorem agency_pct_formula_witness :
    (agencySummaryRow monoCrs "D").pctMonoline
      = some (round2 (((agencySummaryRow monoCrs "D").monolineCount : ℚ)
          / ((agencySummaryRow monoCrs "D").totalClients : ℚ) * 100)) :=
  (agency_pct_formula monoCrs "D" (by decide)).1

/-- C9 counterexample: applying the agency-summary computation of lines
104-105 to a division with zero clients yields NaN (no rational value,
embedded as `none`) for both percentages — not 0.0 as claimed. -/
theorem zero_clients_pct_is_nan :
    (agencySummaryRow [] "D").totalClients = 0 ∧
    (agencySummaryRow [] "D").pctMonoline = none ∧
    (agencySummaryRow [] "D").pctCrossSold = none ∧
    ¬ (agencySummaryRow [] "D").pctMonoline = some 0 := by
  decide

/-- C9 (amended): a division with `totalClients = 0` never appears in
the AgencySummary (every division of the grouped output has at least
one client), so the unguarded division of lines 104-105 is never
reached with a zero denominator; the carrier-level percentage of lines
270-271 is guarded and yields 0.0 for a zero client count. -/
theorem zero_clients_unreachable_and_guarded (crs : List ClassifiedRow) (d : String)
    (h : d ∈ divisionsOf crs) :
    0 < (agencySummaryRow crs d).totalClients ∧
    carrierPctValue 0 0 = 0 ∧
    (∀ m : Nat, carrierPctValue m 0 = 0) := by
  refine ⟨?_, rfl, fun m => rfl⟩
  simp only [divisionsOf, List.mem_dedup, List.mem_map] at h
  obtain ⟨cr, hcr, hdiv⟩ := h
  simp only [agencySummaryRow]
  have hmem : cr ∈ rowsOfDivision crs d := by
    simp [rowsOfDivision, List.mem_filter, hcr, hdiv]
  have hnm : cr.row.customerName
      ∈ ((rowsOfDivision crs d).map (fun cr => cr.row.customerName)).dedup := by
    rw [List.mem_dedup, List.mem_map]
    exact ⟨cr, hmem, rfl⟩
  exact List.length_pos.mpr (List.ne_nil_of_mem hnm)

/-- C9 witness: the amended theorem at the concrete one-client division
of `monoCrs`. -/
theorem zero_clients_unreachable_witness :
    0 < (agencySummaryRow monoCrs "D").totalClients :=
  (zero_clients_unreachable_and_guarded monoCrs "D" (by decide)).1

/-- C10: on every classified row, carrier-level Cross-Sold implies
agency-level Cross-Sold, so the combination of `accountType` Monoline
with `carrierAccountType` Cross-Sold never occurs. -/
theorem carrier_cross_implies_agency_cross (rows : List Row) (cr : ClassifiedRow)
    (h : cr ∈ classifyAll rows) :
    (cr.carrierAccountType = "Cross-Sold" → cr.accountType = "Cross-Sold") ∧
    ¬ (cr.accountType = "Monoline" ∧ cr.carrierAccountType = "Cross-Sold") := by
  obtain ⟨-, ha, hc⟩ := classifyAll_mem h
  have main : classify_carrier rows cr.row.customerName = "Cross-Sold" →
      classify rows cr.row.customerName = "Cross-Sold" := by
    intro hcs
    obtain ⟨c, hcard⟩ :=
      (classify_carrier_eq_crossSold_iff rows cr.row.customerName).mp hcs
    rw [classify_eq_crossSold_iff]
    have hsub : (carrierLobSet rows cr.row.customerName c).card
        ≤ (lobSet rows cr.row.customerName).card := by
      apply Finset.card_le_card
      intro x hx
      simp only [carrierLobSet, List.mem_toFinset, List.mem_map] at hx
      obtain ⟨r, hr, rfl⟩ := hx
      rw [List.mem_filter] at hr
      simp only [lobSet, List.mem_toFinset, List.mem_map]
      exact ⟨r, hr.1, rfl⟩
    omega
  constructor
  · intro hcs
    rw [ha]
    exact main (hc.symm.trans hcs)
  · rintro ⟨hm, hcs⟩
    have hcross := main (hc.symm.trans hcs)
    rw [ha, hcross] at hm
    exact absurd hm (by decide)

/-- C10 witness: the implication at the first classified row of
`sameCarrierRows` (Alice, carrier cross-sold at CarrierA). -/
theorem carrier_cross_implies_agency_cross_witness :
    ¬ (xSame1.accountType = "Monoline" ∧ xSame1.carrierAccountType = "Cross-Sold") :=
  (carrier_cross_implies_agency_cross (filterLOB sameCarrierRows) xSame1 (by decide)).2

end CrossSell
